import Mathlib

/-!
Verification of the db-hub dialect-abstraction layer.

Shallow embedding of the connection-string logic, metadata-list filtering,
query-execution history recording and row-mutation services of the db-hub
repository (frontend `src/services/databaseService.js`, `src/App.jsx`,
`src/components/DatabaseExplorer.jsx`, `src/components/QueryResults.jsx`),
together with proofs of the specification claims about them.

Connection strings are modelled as `List Char` (the suffix `L` marks the
list-level function); `String` wrappers keep the source names.  JavaScript
string primitives used by the source (`lastIndexOf`/`substring`,
`split`, first-occurrence `replace`, `startsWith`) are translated into
executable list functions below, each with a comment stating exactly which
JavaScript behaviour it reproduces (including the
`substring(0, lastIndexOf(c))` result `""` when `c` is absent).
-/

namespace DbHub

/-- The three SQL dialects the layer distinguishes
(`'mysql' | 'postgres' | 'sqlserver'` in the source). -/
inductive DbType where
  | mysql
  | postgres
  | sqlserver
deriving DecidableEq

/-- Models JavaScript `s.substring(0, s.lastIndexOf(c))`: everything strictly
before the last occurrence of `c`, and `[]` when `c` does not occur
(JavaScript clamps the `-1` from `lastIndexOf` to `0`, giving `""`). -/
def beforeLast (c : Char) : List Char → List Char
  | [] => []
  | x :: xs => if c ∈ xs then x :: beforeLast c xs else []

/-- Models the source's use of JavaScript `s.split(c)`: the first component
(`parts[0]`, the text before the first `c`) and, when `c` occurs
(`parts.length > 1`), the second component (`parts[1]`, the text between the
first and second occurrence of `c`). -/
def splitFirstParts (c : Char) (s : List Char) : List Char × Option (List Char) :=
  (s.takeWhile (fun x => x != c),
   if c ∈ s then some (((s.dropWhile (fun x => x != c)).drop 1).takeWhile (fun x => x != c))
   else none)

/-- Models JavaScript `s.replace(pat, rep)` for plain-string patterns:
only the first occurrence of `pat` is replaced. -/
def replaceFirst (pat rep : List Char) : List Char → List Char
  | [] => if pat = [] then rep else []
  | x :: xs =>
    if pat.isPrefixOf (x :: xs) then rep ++ (x :: xs).drop pat.length
    else x :: replaceFirst pat rep xs

/-- Scheme characters allowed after the initial letter of a URL scheme. -/
def isSchemeTailChar (ch : Char) : Bool :=
  ch.isAlphanum || ch == '+' || ch == '-' || ch == '.'

/-- The WHATWG special schemes whose URLs require a non-empty authority
(`file` is left out: it accepts an empty host). -/
def specialSchemes : List (List Char) :=
  ["http".data, "https".data, "ws".data, "wss".data, "ftp".data]

/-- Models whether the JavaScript `new URL(s)` constructor succeeds.
Modelled fragment of the WHATWG URL parser: the string must begin with a
valid scheme (a letter followed by letters, digits, `+`, `-` or `.`) and a
`:`; for the special schemes a non-empty authority must follow.  Host
character validation and port-range checks are not modelled; the source
only uses the constructor for its throw/no-throw outcome (the parsed `url`
value is dead code). -/
def jsUrlOk (s : List Char) : Bool :=
  match s with
  | [] => false
  | c :: rest =>
    c.isAlpha &&
    (match rest.dropWhile isSchemeTailChar with
     | ':' :: r2 =>
       let scheme := c :: rest.takeWhile isSchemeTailChar
       if specialSchemes.contains scheme then
         !((r2.dropWhile (fun ch => ch == '/' || ch == '\\')).takeWhile
             (fun ch => ch != '/' && ch != '?' && ch != '#' && ch != '\\')).isEmpty
       else true
     | _ => false)

/-- The scheme rewriting performed before `new URL(...)` in
`getConnectionStringForDb`: the three driver-qualified schemes are replaced
(first occurrence each, in source order) by `http://`. -/
def transformForUrl (s : List Char) : List Char :=
  replaceFirst "mssql+pyodbc://".data "http://".data
    (replaceFirst "postgresql+psycopg2://".data "http://".data
      (replaceFirst "mysql+pymysql://".data "http://".data s))

/-- `getDbTypeFromStr` of `databaseService.js` on character lists: classify a
raw connection string by scheme prefix; empty and unmatched strings default
to `mysql`. -/
def getDbTypeFromStrL (s : List Char) : DbType :=
  if s = [] then .mysql
  else if "mysql".data.isPrefixOf s then .mysql
  else if "postgresql".data.isPrefixOf s then .postgres
  else if "postgres".data.isPrefixOf s then .postgres
  else if "mssql".data.isPrefixOf s then .sqlserver
  else .mysql

/-- `getDbTypeFromStr` of `databaseService.js`. -/
def getDbTypeFromStr (s : String) : DbType :=
  getDbTypeFromStrL s.data

/-- `getConnectionStringForDb` of `databaseService.js` on character lists.
Empty connection string or empty database name are returned unchanged
(JavaScript falsiness); when `new URL` on the scheme-rewritten string throws,
the `catch` branch logs and returns the original string; otherwise for
`sqlserver`-classified strings the text before the last `/` of `parts[0]`
(split at `?`) is kept, the database name appended and `?parts[1]`
re-attached, and for every other classification everything from the last
`/` on is replaced by the database name.  The `protocol` variable of the
source is dead code and is not modelled. -/
def getConnectionStringForDbL (s d : List Char) : List Char :=
  if s = [] ∨ d = [] then s
  else
    let t := getDbTypeFromStrL s
    if jsUrlOk (transformForUrl s) then
      if t = .sqlserver then
        let p := splitFirstParts '?' s
        let base := beforeLast '/' p.1
        let query := match p.2 with
          | some q => '?' :: q
          | none => []
        base ++ '/' :: (d ++ query)
      else
        beforeLast '/' s ++ '/' :: d
    else s

/-- `getConnectionStringForDb` of `databaseService.js`. -/
def getConnectionStringForDb (s d : String) : String :=
  String.mk (getConnectionStringForDbL s.data d.data)

/-- The mysql system-catalog list appearing literally in the filter of
`getDatabases` in `databaseService.js`. -/
def mysqlSystemDbs : List String :=
  ["information_schema", "mysql", "performance_schema", "sys"]

/-- The client-side filter `getDatabases` applies to the fetched database
names (translated from its `filter` callback; the preceding
`row => Object.values(row)[0]` extraction is elided, so the input is the
already-extracted list of names). -/
def getDatabasesFilter (t : DbType) (dbs : List String) : List String :=
  dbs.filter (fun db =>
    if t = .mysql then !(mysqlSystemDbs.contains db)
    else if t = .postgres then !((["postgres"] : List String).contains db)
    else true)

/-- The system catalogs the spec (§4.3) says each dialect excludes, stated
from the spec's words for comparison with `getDatabasesFilter`, which is
translated from the source. -/
def excludedCatalogs : DbType → List String
  | .mysql => ["information_schema", "mysql", "performance_schema", "sys"]
  | .postgres => ["postgres"]
  | .sqlserver => []

/-- The uniform result shape the query executor returns
(spec §3 `QueryResult`); row contents are irrelevant to the claims, so each
row is abstracted to an opaque string. -/
structure QueryResult where
  success : Bool
  rows : Option (List String)
  rows_affected : Option Int
  message : Option String
deriving DecidableEq

/-- The rows-affected figure `handleExecuteQuery` passes to `addHistory`:
`result.rows_affected || (result.rows ? result.rows.length : 0)`
(`0`, `null` and `undefined` are falsy). -/
def histRowsAffected (r : QueryResult) : Int :=
  match r.rows_affected with
  | some n =>
    if n = 0 then (match r.rows with | some rs => rs.length | none => 0) else n
  | none => match r.rows with | some rs => rs.length | none => 0

/-- The observable outcome of one `handleExecuteQuery` run: the component
state set, the `addHistory` invocations it made (status and rows-affected
argument), and whether an exception escaped to the caller. -/
structure HandlerOutcome where
  queryResult : Option QueryResult
  queryError : Option String
  historyCalls : List (String × Int)
  raisedToCaller : Bool
deriving DecidableEq

/-- `handleExecuteQuery` of `App.jsx`.  Its two external effects are the
model's parameters: `exec` is the executor outcome (a resolved
`QueryResult`, possibly with `success: false`, or a raised transport
error), and `histPersistOk` says whether the `addHistory` POST persists.
In the resolve path the code stores the result and calls
`addHistory(query, db, 'success', duration, ...)` — the status literal is
hard-coded, independent of `result.success`; in the raise path it stores
the error and calls `addHistory(..., 'error', duration, 0)`.  Both
`addHistory` calls sit in an inner `try/catch` whose handler only
`console.warn`s, so `histPersistOk` influences nothing observable.
Wall-clock timing and toast glue are not modelled. -/
def handleExecuteQuery (exec : Except String QueryResult) (_histPersistOk : Bool) :
    HandlerOutcome :=
  match exec with
  | .ok r =>
    { queryResult := some r
      queryError := none
      historyCalls := [("success", histRowsAffected r)]
      raisedToCaller := false }
  | .error e =>
    { queryResult := none
      queryError := some e
      historyCalls := [("error", 0)]
      raisedToCaller := false }

/-- The five per-category schema-object lists `DatabaseExplorer` keeps in
its `objects` state. -/
structure DbObjects where
  tables : List String
  views : List String
  procedures : List String
  functions : List String
  triggers : List String
deriving DecidableEq

/-- JavaScript `Promise.all` over the five metadata-category fetches of
`loadDatabaseObjects`: resolves with all five lists only when every fetch
resolves, and otherwise rejects with the first (in array order) rejection's
message.  The remaining fetches still run; only their results are
discarded. -/
def promiseAll5 (t v p f g : Except String (List String)) :
    Except String (List String × List String × List String × List String × List String) := do
  let ts ← t
  let vs ← v
  let ps ← p
  let fs ← f
  let gs ← g
  pure (ts, vs, ps, fs, gs)

/-- `loadDatabaseObjects` of `DatabaseExplorer.jsx`, as a function of the
previous `objects` state and the five category fetch outcomes: when the
`Promise.all` join resolves, the five fetched lists replace the state and
no error is shown; when it rejects, the single `catch` shows one combined
toast message and `setObjects` is never reached, so the previous state is
kept. -/
def loadDatabaseObjects (prev : DbObjects) (t v p f g : Except String (List String)) :
    DbObjects × Option String :=
  match promiseAll5 t v p f g with
  | .ok (ts, vs, ps, fs, gs) =>
    ({ tables := ts, views := vs, procedures := ps, functions := fs, triggers := gs }, none)
  | .error e => (prev, some ("Failed to load database objects: " ++ e))

/-- The row-mutation failure of spec §7 raised on an empty primary-key
identity. -/
inductive MutationError where
  | MutationPreconditionFailed
deriving DecidableEq

/-- Comma-joined `col=val` assignments of a SET list. -/
def sqlAssignments (pairs : List (String × String)) : String :=
  String.intercalate ", " (pairs.map (fun kv => kv.fst ++ "=" ++ kv.snd))

/-- AND-joined `col=val` equality conjunction of a WHERE clause. -/
def sqlWhere (pk : List (String × String)) : String :=
  String.intercalate " AND " (pk.map (fun kv => kv.fst ++ "=" ++ kv.snd))

/-- Modelled from the spec: the SET-list column selection of the backend
RowMutationService `update` (the handler behind `/api/query/data/update` is
not under `src/`; only its frontend caller `updateTableRow` is).  Spec
§4.4: columns of `newValues` that are also primary-key columns are
silently dropped rather than rejected. -/
def updateSetPairs (pk nv : List (String × String)) : List (String × String) :=
  nv.filter (fun kv => !((pk.map Prod.fst).contains kv.fst))

/-- Modelled from the spec: the backend RowMutationService `update`
operation (not under `src/`; only its frontend caller is).  Spec §4.4: an
empty `primaryKeyIdentity` is refused with `MutationPreconditionFailed`
before any SQL is issued; otherwise the statement
`UPDATE <table> SET <col>=<val>,... WHERE <pk1>=<v1> AND ...` is produced,
with primary-key columns dropped from the SET list. -/
def updateRowSql (table : String) (pk nv : List (String × String)) :
    Except MutationError String :=
  if pk.isEmpty then .error .MutationPreconditionFailed
  else
    .ok ("UPDATE " ++ table ++ " SET " ++ sqlAssignments (updateSetPairs pk nv)
          ++ " WHERE " ++ sqlWhere pk)

/-- Modelled from the spec: the backend RowMutationService `delete`
operation (not under `src/`; only its frontend caller `deleteTableRow`
is).  Spec §4.4: an empty `primaryKeyIdentity` is refused with
`MutationPreconditionFailed` before any SQL is issued; otherwise
`DELETE FROM <table> WHERE <pk1>=<v1> AND ...` is produced. -/
def deleteRowSql (table : String) (pk : List (String × String)) :
    Except MutationError String :=
  if pk.isEmpty then .error .MutationPreconditionFailed
  else .ok ("DELETE FROM " ++ table ++ " WHERE " ++ sqlWhere pk)

/-! ## Helper lemmas about the string primitives -/

theorem cons_isPrefixOf_cons (a b : Char) (as bs : List Char) :
    (a :: as).isPrefixOf (b :: bs) = (a == b && as.isPrefixOf bs) := rfl

theorem isPrefixOf_append_self (l r : List Char) : l.isPrefixOf (l ++ r) = true := by
  induction l with
  | nil => cases r <;> rfl
  | cons a as ih => rw [List.cons_append, cons_isPrefixOf_cons, ih]; simp

theorem isPrefixOf_exists (l s : List Char) (h : l.isPrefixOf s = true) :
    ∃ t, s = l ++ t := by
  induction l generalizing s with
  | nil => exact ⟨s, rfl⟩
  | cons a as ih =>
    cases s with
    | nil => simp [List.isPrefixOf] at h
    | cons b bs =>
      rw [cons_isPrefixOf_cons, Bool.and_eq_true, beq_iff_eq] at h
      obtain ⟨t, ht⟩ := ih bs h.2
      exact ⟨t, by rw [ht, h.1, List.cons_append]⟩

theorem beforeLast_of_not_mem (c : Char) (s : List Char) (h : c ∉ s) :
    beforeLast c s = [] := by
  cases s with
  | nil => rfl
  | cons x xs =>
    have : c ∉ xs := fun hx => h (List.mem_cons_of_mem _ hx)
    simp [beforeLast, this]

theorem beforeLast_append (c : Char) (A T : List Char) (h : c ∉ T) :
    beforeLast c (A ++ c :: T) = A := by
  induction A with
  | nil => simp [beforeLast, h]
  | cons x xs ih =>
    have hm : c ∈ xs ++ c :: T := List.mem_append.mpr (Or.inr (List.mem_cons_self c T))
    simp [beforeLast, hm, ih]

theorem takeWhile_ne_of_not_mem (c : Char) (P : List Char) (hP : c ∉ P) :
    P.takeWhile (fun x => x != c) = P := by
  induction P with
  | nil => rfl
  | cons x xs ih =>
    have hx : x ≠ c := fun he => hP (he ▸ List.mem_cons_self x xs)
    have hxs : c ∉ xs := fun hm => hP (List.mem_cons_of_mem _ hm)
    simp [List.takeWhile_cons, hx, ih hxs]

theorem takeWhile_ne_append (c : Char) (P R : List Char) (hP : c ∉ P) :
    (P ++ c :: R).takeWhile (fun x => x != c) = P := by
  induction P with
  | nil => simp [List.takeWhile_cons]
  | cons x xs ih =>
    have hx : x ≠ c := fun he => hP (he ▸ List.mem_cons_self x xs)
    have hxs : c ∉ xs := fun hm => hP (List.mem_cons_of_mem _ hm)
    simp [List.takeWhile_cons, hx, ih hxs]

theorem dropWhile_ne_append (c : Char) (P R : List Char) (hP : c ∉ P) :
    (P ++ c :: R).dropWhile (fun x => x != c) = c :: R := by
  induction P with
  | nil => simp [List.dropWhile_cons]
  | cons x xs ih =>
    have hx : x ≠ c := fun he => hP (he ▸ List.mem_cons_self x xs)
    have hxs : c ∉ xs := fun hm => hP (List.mem_cons_of_mem _ hm)
    simp [List.dropWhile_cons, hx, ih hxs]

theorem not_mem_takeWhile_ne (c : Char) (s : List Char) :
    c ∉ s.takeWhile (fun x => x != c) := by
  intro hm
  have := List.mem_takeWhile_imp hm
  simp at this

theorem splitFirstParts_of_not_mem (c : Char) (s : List Char) (h : c ∉ s) :
    splitFirstParts c s = (s, none) := by
  simp [splitFirstParts, h, takeWhile_ne_of_not_mem]

theorem splitFirstParts_append (c : Char) (P R : List Char) (hP : c ∉ P) :
    splitFirstParts c (P ++ c :: R) = (P, some (R.takeWhile (fun x => x != c))) := by
  have hm : c ∈ P ++ c :: R := List.mem_append.mpr (Or.inr (List.mem_cons_self c R))
  simp [splitFirstParts, hm, takeWhile_ne_append c P R hP, dropWhile_ne_append c P R hP]

theorem exists_last_decomp (c : Char) (s : List Char) (h : c ∈ s) :
    ∃ A T, s = A ++ c :: T ∧ c ∉ T := by
  induction s with
  | nil => cases h
  | cons x xs ih =>
    by_cases hx : c ∈ xs
    · obtain ⟨A, T, h1, h2⟩ := ih hx
      exact ⟨x :: A, T, by rw [h1, List.cons_append], h2⟩
    · have : x = c := by
        rcases List.mem_cons.mp h with he | hm
        · exact he.symm
        · exact absurd hm hx
      exact ⟨[], xs, by rw [this, List.nil_append], hx⟩

theorem exists_first_decomp (c : Char) (s : List Char) (h : c ∈ s) :
    ∃ P R, s = P ++ c :: R ∧ c ∉ P := by
  induction s with
  | nil => cases h
  | cons x xs ih =>
    by_cases hx : x = c
    · exact ⟨[], xs, by rw [hx, List.nil_append], List.not_mem_nil c⟩
    · have hm : c ∈ xs := by
        rcases List.mem_cons.mp h with he | hmm
        · exact absurd he.symm hx
        · exact hmm
      obtain ⟨P, R, h1, h2⟩ := ih hm
      refine ⟨x :: P, R, by rw [h1, List.cons_append], ?_⟩
      intro hc
      rcases List.mem_cons.mp hc with he | hmm
      · exact hx he.symm
      · exact h2 hmm

theorem replaceFirst_cons_of_head_ne (p : Char) (ps rep : List Char) (x : Char)
    (xs : List Char) (h : p ≠ x) :
    replaceFirst (p :: ps) rep (x :: xs) = x :: replaceFirst (p :: ps) rep xs := by
  have hpre : (p :: ps).isPrefixOf (x :: xs) = false := by
    rw [cons_isPrefixOf_cons]
    simp [h]
  simp [replaceFirst, hpre]

theorem transformForUrl_slash (x : List Char) :
    ∃ y, transformForUrl ('/' :: x) = '/' :: y := by
  have e1 : ("mysql+pymysql://".data) = 'm' :: "ysql+pymysql://".data := rfl
  have e2 : ("postgresql+psycopg2://".data) = 'p' :: "ostgresql+psycopg2://".data := rfl
  have e3 : ("mssql+pyodbc://".data) = 'm' :: "ssql+pyodbc://".data := rfl
  unfold transformForUrl
  rw [e1, replaceFirst_cons_of_head_ne _ _ _ _ _ (by decide),
    e2, replaceFirst_cons_of_head_ne _ _ _ _ _ (by decide),
    e3, replaceFirst_cons_of_head_ne _ _ _ _ _ (by decide)]
  exact ⟨_, rfl⟩

theorem jsUrlOk_slash (x : List Char) : jsUrlOk ('/' :: x) = false := rfl

/-! ## Classification helper lemmas -/

theorem mysql_not_prefixOf_mssql (x : List Char) :
    "mysql".data.isPrefixOf ("mssql".data ++ x) = false := rfl

theorem postgresql_not_prefixOf_mssql (x : List Char) :
    "postgresql".data.isPrefixOf ("mssql".data ++ x) = false := rfl

theorem postgres_not_prefixOf_mssql (x : List Char) :
    "postgres".data.isPrefixOf ("mssql".data ++ x) = false := rfl

theorem getDbTypeFromStrL_mssql (x : List Char) :
    getDbTypeFromStrL ("mssql".data ++ x) = .sqlserver := by
  unfold getDbTypeFromStrL
  rw [if_neg (by simp), if_neg (by rw [mysql_not_prefixOf_mssql]; simp),
    if_neg (by rw [postgresql_not_prefixOf_mssql]; simp),
    if_neg (by rw [postgres_not_prefixOf_mssql]; simp),
    if_pos (by rw [isPrefixOf_append_self])]

theorem mssql_prefix_of_sqlserver (s : List Char)
    (h : getDbTypeFromStrL s = .sqlserver) : "mssql".data.isPrefixOf s = true := by
  unfold getDbTypeFromStrL at h
  split_ifs at h with h1 h2 h3 h4 h5
  · exact h5

theorem nil_isPrefixOf (x : List Char) : ([] : List Char).isPrefixOf x = true := by
  cases x <;> rfl

theorem isPrefixOf_trans_append (pat A X : List Char) (h : pat.isPrefixOf A = true) :
    pat.isPrefixOf (A ++ X) = true := by
  induction pat generalizing A with
  | nil => exact nil_isPrefixOf _
  | cons p ps ih =>
    cases A with
    | nil => simp [List.isPrefixOf] at h
    | cons a as =>
      rw [cons_isPrefixOf_cons, Bool.and_eq_true] at h
      rw [List.cons_append, cons_isPrefixOf_cons, h.1, ih as h.2]
      rfl

theorem isPrefixOf_append_cons_elim (pat A X : List Char) (c : Char) (hc : c ∉ pat)
    (h : pat.isPrefixOf (A ++ c :: X) = true) : pat.isPrefixOf A = true := by
  induction pat generalizing A with
  | nil => exact nil_isPrefixOf _
  | cons p ps ih =>
    cases A with
    | nil =>
      rw [List.nil_append, cons_isPrefixOf_cons, Bool.and_eq_true, beq_iff_eq] at h
      exact absurd (h.1 ▸ List.mem_cons_self p ps) hc
    | cons a as =>
      rw [List.cons_append, cons_isPrefixOf_cons, Bool.and_eq_true] at h
      have hc' : c ∉ ps := fun hm => hc (List.mem_cons_of_mem _ hm)
      rw [cons_isPrefixOf_cons, h.1, ih as hc' h.2]
      rfl

theorem takeWhile_all_append (p : Char → Bool) (A X : List Char)
    (hA : ∀ a ∈ A, p a = true) : (A ++ X).takeWhile p = A ++ X.takeWhile p := by
  induction A with
  | nil => rfl
  | cons x xs ih =>
    rw [List.cons_append, List.takeWhile_cons, hA x (List.mem_cons_self x xs)]
    rw [ih fun a ha => hA a (List.mem_cons_of_mem _ ha), List.cons_append]
    simp

theorem last_decomp_unique (c : Char) (A₁ T₁ A₂ T₂ : List Char)
    (h : A₁ ++ c :: T₁ = A₂ ++ c :: T₂) (h1 : c ∉ T₁) (h2 : c ∉ T₂) :
    A₁ = A₂ ∧ T₁ = T₂ := by
  have hA : A₁ = A₂ := by
    rw [← beforeLast_append c A₁ T₁ h1, h, beforeLast_append c A₂ T₂ h2]
  refine ⟨hA, ?_⟩
  subst hA
  have := List.append_cancel_left h
  exact (List.cons.injEq _ _ _ _).mp this |>.2

theorem last_decomp_shift (M P' A T : List Char) (c : Char) (hM : c ∉ M) (hT : c ∉ T)
    (h : M ++ P' = A ++ c :: T) : ∃ A', A = M ++ A' ∧ P' = A' ++ c :: T := by
  have hcP' : c ∈ P' := by
    have hmem : c ∈ M ++ P' := by
      rw [h]
      exact List.mem_append.mpr (Or.inr (List.mem_cons_self c T))
    rcases List.mem_append.mp hmem with hm | hm
    · exact absurd hm hM
    · exact hm
  obtain ⟨B, O, hBO, hO⟩ := exists_last_decomp c P' hcP'
  have heq : (M ++ B) ++ c :: O = A ++ c :: T := by
    rw [← h, hBO, List.append_assoc]
  obtain ⟨hA, hTO⟩ := last_decomp_unique c (M ++ B) O A T heq hO hT
  exact ⟨B, hA.symm, by rw [hBO, hTO]⟩

theorem first_decomp_shift (M rest P R : List Char) (c : Char) (hM : c ∉ M) (hP : c ∉ P)
    (h : M ++ rest = P ++ c :: R) : ∃ P', P = M ++ P' := by
  have e1 : (P ++ c :: R).takeWhile (fun x => x != c) = P := takeWhile_ne_append c P R hP
  have e2 : (M ++ rest).takeWhile (fun x => x != c)
      = M ++ rest.takeWhile (fun x => x != c) := by
    refine takeWhile_all_append _ M rest fun a ha => ?_
    simp only [bne_iff_ne, ne_eq, decide_eq_true_eq]
    exact fun he => hM (he ▸ ha)
  exact ⟨rest.takeWhile (fun x => x != c), by rw [← e1, ← h, e2]⟩

theorem mysql_not_prefixOf_postgresql (x : List Char) :
    "mysql".data.isPrefixOf ("postgresql".data ++ x) = false := rfl

theorem mysql_not_prefixOf_postgres (x : List Char) :
    "mysql".data.isPrefixOf ("postgres".data ++ x) = false := rfl

theorem string_mk_data (s : String) : String.mk s.data = s := rfl

/-! ## Evaluation lemmas for `getConnectionStringForDbL`
One lemma per control-flow path of the source function. -/

theorem fL_catch (s d : List Char) (hs : s ≠ []) (hd : d ≠ [])
    (hu : jsUrlOk (transformForUrl s) = false) :
    getConnectionStringForDbL s d = s := by
  simp only [getConnectionStringForDbL]
  rw [if_neg (not_or.mpr ⟨hs, hd⟩), if_neg (by simp [hu])]

theorem fL_sqlserver_query (P R d : List Char) (hP : '?' ∉ P) (hd : d ≠ [])
    (ht : getDbTypeFromStrL (P ++ '?' :: R) = .sqlserver)
    (hu : jsUrlOk (transformForUrl (P ++ '?' :: R)) = true) :
    getConnectionStringForDbL (P ++ '?' :: R) d
      = beforeLast '/' P ++ ('/' :: (d ++ ('?' :: R.takeWhile (fun x => x != '?')))) := by
  have hne : P ++ '?' :: R ≠ [] := by simp
  simp only [getConnectionStringForDbL]
  rw [if_neg (not_or.mpr ⟨hne, hd⟩), if_pos hu, if_pos ht,
    splitFirstParts_append '?' P R hP]

theorem fL_sqlserver_no_query (s d : List Char) (hq : '?' ∉ s) (hs : s ≠ []) (hd : d ≠ [])
    (ht : getDbTypeFromStrL s = .sqlserver)
    (hu : jsUrlOk (transformForUrl s) = true) :
    getConnectionStringForDbL s d = beforeLast '/' s ++ ('/' :: d) := by
  simp only [getConnectionStringForDbL]
  rw [if_neg (not_or.mpr ⟨hs, hd⟩), if_pos hu, if_pos ht,
    splitFirstParts_of_not_mem '?' s hq]
  simp

theorem fL_other (s d : List Char) (hs : s ≠ []) (hd : d ≠ [])
    (ht : getDbTypeFromStrL s ≠ .sqlserver)
    (hu : jsUrlOk (transformForUrl s) = true) :
    getConnectionStringForDbL s d = beforeLast '/' s ++ ('/' :: d) := by
  simp only [getConnectionStringForDbL]
  rw [if_neg (not_or.mpr ⟨hs, hd⟩), if_pos hu, if_neg ht]

theorem bool_eq_false_of_ne_true {b : Bool} (h : ¬ b = true) : b = false := by
  cases b
  · rfl
  · exact absurd rfl h

/-- Idempotence of retargeting at the character-list level, for database
names containing neither `/` nor `?`. -/
theorem idemL (s d : List Char) (hd : d ≠ []) (h1 : '/' ∉ d) (h2 : '?' ∉ d) :
    getConnectionStringForDbL (getConnectionStringForDbL s d) d
      = getConnectionStringForDbL s d := by
  by_cases hs : s = []
  · subst hs
    rfl
  by_cases hu : jsUrlOk (transformForUrl s) = true
  case neg =>
    have hc := fL_catch s d hs hd (bool_eq_false_of_ne_true hu)
    rw [hc]
    exact hc
  case pos =>
    by_cases ht : getDbTypeFromStrL s = .sqlserver
    · obtain ⟨rest, hrest⟩ := isPrefixOf_exists _ _ (mssql_prefix_of_sqlserver s ht)
      by_cases hqs : '?' ∈ s
      · -- sqlserver, query present in s
        obtain ⟨P, R, hPR, hPnot⟩ := exists_first_decomp '?' s hqs
        set q1 := R.takeWhile (fun x => x != '?') with hq1def
        have hq1 : '?' ∉ q1 := not_mem_takeWhile_ne _ _
        rw [hPR] at ht hu
        have hr : getConnectionStringForDbL s d
            = beforeLast '/' P ++ ('/' :: (d ++ ('?' :: q1))) := by
          rw [hPR, fL_sqlserver_query P R d hPnot hd ht hu]
        by_cases hslP : '/' ∈ P
        · obtain ⟨B, O, hBO, hO⟩ := exists_last_decomp '/' P hslP
          have hbl : beforeLast '/' P = B := by
            rw [hBO]; exact beforeLast_append '/' B O hO
          obtain ⟨P', hP'⟩ : ∃ P', P = "mssql".data ++ P' := by
            refine first_decomp_shift "mssql".data rest P R '?' (by decide) hPnot ?_
            rw [← hrest]; exact hPR
          obtain ⟨B', hB', _⟩ :=
            last_decomp_shift "mssql".data P' B O '/' (by decide) hO
              (by rw [← hP']; exact hBO)
          have hqB : '?' ∉ B := fun hm =>
            hPnot (hBO ▸ List.mem_append.mpr (Or.inl hm))
          rw [hr, hbl]
          by_cases hu2 :
              jsUrlOk (transformForUrl (B ++ ('/' :: (d ++ ('?' :: q1))))) = true
          · have hsEq2 : B ++ ('/' :: (d ++ ('?' :: q1)))
                = (B ++ '/' :: d) ++ '?' :: q1 := by simp
            have hP2 : '?' ∉ B ++ '/' :: d := by
              simp only [List.mem_append, List.mem_cons, not_or]
              exact ⟨hqB, by decide, h2⟩
            have ht2 : getDbTypeFromStrL ((B ++ '/' :: d) ++ '?' :: q1) = .sqlserver := by
              have e : (B ++ '/' :: d) ++ '?' :: q1
                  = "mssql".data ++ ((B' ++ '/' :: d) ++ '?' :: q1) := by
                rw [hB']; simp
              rw [e]; exact getDbTypeFromStrL_mssql _
            rw [hsEq2] at hu2 ⊢
            rw [fL_sqlserver_query _ _ _ hP2 hd ht2 hu2,
              takeWhile_ne_of_not_mem '?' q1 hq1,
              beforeLast_append '/' B d h1]
            simp
          · exact fL_catch _ d (by simp) hd (bool_eq_false_of_ne_true hu2)
        · have hbl : beforeLast '/' P = [] := beforeLast_of_not_mem '/' P hslP
          rw [hr, hbl, List.nil_append]
          obtain ⟨y, hy⟩ := transformForUrl_slash (d ++ ('?' :: q1))
          exact fL_catch _ d (by simp) hd (by rw [hy]; exact jsUrlOk_slash y)
      · -- sqlserver, no query in s
        have hr : getConnectionStringForDbL s d = beforeLast '/' s ++ ('/' :: d) :=
          fL_sqlserver_no_query s d hqs hs hd ht hu
        by_cases hslS : '/' ∈ s
        · obtain ⟨A, T, hAT, hT⟩ := exists_last_decomp '/' s hslS
          have hbl : beforeLast '/' s = A := by
            rw [hAT]; exact beforeLast_append '/' A T hT
          obtain ⟨A', hA1, _⟩ :=
            last_decomp_shift "mssql".data rest A T '/' (by decide) hT
              (by rw [← hrest]; exact hAT)
          have hqA : '?' ∉ A := fun hm =>
            hqs (hAT ▸ List.mem_append.mpr (Or.inl hm))
          rw [hr, hbl]
          by_cases hu2 : jsUrlOk (transformForUrl (A ++ ('/' :: d))) = true
          · have ht2 : getDbTypeFromStrL (A ++ ('/' :: d)) = .sqlserver := by
              have e : A ++ ('/' :: d) = "mssql".data ++ (A' ++ ('/' :: d)) := by
                rw [hA1]; simp
              rw [e]; exact getDbTypeFromStrL_mssql _
            have hq2 : '?' ∉ A ++ ('/' :: d) := by
              simp only [List.mem_append, List.mem_cons, not_or]
              exact ⟨hqA, by decide, h2⟩
            rw [fL_sqlserver_no_query _ d hq2 (by simp) hd ht2 hu2,
              beforeLast_append '/' A d h1]
          · exact fL_catch _ d (by simp) hd (bool_eq_false_of_ne_true hu2)
        · have hbl : beforeLast '/' s = [] := beforeLast_of_not_mem '/' s hslS
          rw [hr, hbl, List.nil_append]
          obtain ⟨y, hy⟩ := transformForUrl_slash d
          exact fL_catch _ d (by simp) hd (by rw [hy]; exact jsUrlOk_slash y)
    · -- not sqlserver-classified
      have hr : getConnectionStringForDbL s d = beforeLast '/' s ++ ('/' :: d) :=
        fL_other s d hs hd ht hu
      by_cases hslS : '/' ∈ s
      · obtain ⟨A, T, hAT, hT⟩ := exists_last_decomp '/' s hslS
        have hbl : beforeLast '/' s = A := by
          rw [hAT]; exact beforeLast_append '/' A T hT
        rw [hr, hbl]
        have ht2 : getDbTypeFromStrL (A ++ ('/' :: d)) ≠ .sqlserver := by
          intro hEq
          have hpreA : "mssql".data.isPrefixOf A = true :=
            isPrefixOf_append_cons_elim "mssql".data A d '/' (by decide)
              (mssql_prefix_of_sqlserver _ hEq)
          have hpreS : "mssql".data.isPrefixOf s = true := by
            rw [hAT]
            exact isPrefixOf_trans_append _ A _ hpreA
          obtain ⟨r2, hr2⟩ := isPrefixOf_exists _ _ hpreS
          apply ht
          rw [hr2]
          exact getDbTypeFromStrL_mssql r2
        by_cases hu2 : jsUrlOk (transformForUrl (A ++ ('/' :: d))) = true
        · rw [fL_other _ d (by simp) hd ht2 hu2, beforeLast_append '/' A d h1]
        · exact fL_catch _ d (by simp) hd (bool_eq_false_of_ne_true hu2)
      · have hbl : beforeLast '/' s = [] := beforeLast_of_not_mem '/' s hslS
        rw [hr, hbl, List.nil_append]
        obtain ⟨y, hy⟩ := transformForUrl_slash d
        exact fL_catch _ d (by simp) hd (by rw [hy]; exact jsUrlOk_slash y)

/-! ## Claim theorems -/

/-- C2: `getDbTypeFromStr` always yields exactly one dialect of
{mysql, postgres, sqlserver}; strings starting with `mysql` classify as
mysql, strings starting with `postgresql` or `postgres` as postgres,
strings starting with `mssql` as sqlserver, and any unmatched string
defaults to mysql; in particular the three driver-qualified example
strings classify as mysql, postgres and sqlserver respectively. -/
theorem claim_C2_classification (s : List Char) :
    (getDbTypeFromStrL s = .mysql ∨ getDbTypeFromStrL s = .postgres ∨
      getDbTypeFromStrL s = .sqlserver)
  ∧ (∀ r : List Char, getDbTypeFromStrL ("mysql".data ++ r) = .mysql)
  ∧ (∀ r : List Char, getDbTypeFromStrL ("postgresql".data ++ r) = .postgres)
  ∧ (∀ r : List Char, getDbTypeFromStrL ("postgres".data ++ r) = .postgres)
  ∧ (∀ r : List Char, getDbTypeFromStrL ("mssql".data ++ r) = .sqlserver)
  ∧ ("mysql".data.isPrefixOf s = false → "postgresql".data.isPrefixOf s = false →
      "postgres".data.isPrefixOf s = false → "mssql".data.isPrefixOf s = false →
      getDbTypeFromStrL s = .mysql)
  ∧ getDbTypeFromStr "mysql+pymysql://u:p@h/db" = .mysql
  ∧ getDbTypeFromStr "postgresql+psycopg2://u:p@h/db" = .postgres
  ∧ getDbTypeFromStr "mssql+pyodbc://u:p@h/db?driver=X" = .sqlserver := by
  refine ⟨?_, ?_, ?_, ?_, ?_, ?_, rfl, rfl, rfl⟩
  · cases h : getDbTypeFromStrL s <;> simp
  · intro r
    unfold getDbTypeFromStrL
    rw [if_neg (by simp), if_pos (by rw [isPrefixOf_append_self])]
  · intro r
    unfold getDbTypeFromStrL
    rw [if_neg (by simp), if_neg (by rw [mysql_not_prefixOf_postgresql]; simp),
      if_pos (by rw [isPrefixOf_append_self])]
  · intro r
    unfold getDbTypeFromStrL
    rw [if_neg (by simp), if_neg (by rw [mysql_not_prefixOf_postgres]; simp)]
    by_cases hq : "postgresql".data.isPrefixOf ("postgres".data ++ r) = true
    · rw [if_pos hq]
    · rw [if_neg hq, if_pos (by rw [isPrefixOf_append_self])]
  · exact getDbTypeFromStrL_mssql
  · intro h1 h2 h3 h4
    unfold getDbTypeFromStrL
    by_cases hs : s = []
    · rw [if_pos hs]
    · rw [if_neg hs, if_neg (by simp [h1]), if_neg (by simp [h2]),
        if_neg (by simp [h3]), if_neg (by simp [h4])]

/-- Witness for C2: the default branch at a concrete unmatched string. -/
theorem claim_C2_classification_witness :
    getDbTypeFromStrL "oracle://u:p@h/db".data = .mysql :=
  (claim_C2_classification "oracle://u:p@h/db".data).2.2.2.2.2.1
    (by decide) (by decide) (by decide) (by decide)

/-- C1 (counterexample): for a mysql-classified raw string carrying a
query suffix, `getConnectionStringForDb` does not preserve the query-string
parameters: the whole `?charset=utf8` suffix is replaced together with the
path segment, contradicting the claim that for every raw connection string
query parameters are preserved verbatim. -/
theorem claim_C1_counterexample :
    getConnectionStringForDb "mysql://u:p@h/db?charset=utf8" "newdb"
      = "mysql://u:p@h/newdb"
  ∧ getConnectionStringForDb "mysql://u:p@h/db?charset=utf8" "newdb"
      ≠ "mysql://u:p@h/newdb?charset=utf8" := ⟨rfl, by decide⟩

/-- C1 (amended): the query-preservation part of the claim holds only on
the sqlserver path.  (a) For a `mssql`-prefixed string of shape
`mssql…/old?q` (single `?`, `old` without `/`), only the path segment is
replaced and the `?q` suffix — in particular a `?driver=...` suffix — and
the driver-prefixed scheme are preserved verbatim.  (b) For every string
not classified sqlserver, everything after the last `/` — including any
query string — is replaced by the database name, so query parameters are
dropped. -/
theorem claim_C1_amended :
    (∀ pre old q d : List Char,
      '?' ∉ pre → '/' ∉ old → '?' ∉ old → '?' ∉ q → d ≠ [] →
      jsUrlOk (transformForUrl
        ("mssql".data ++ (pre ++ ('/' :: (old ++ ('?' :: q)))))) = true →
      getConnectionStringForDbL
          ("mssql".data ++ (pre ++ ('/' :: (old ++ ('?' :: q))))) d
        = "mssql".data ++ (pre ++ ('/' :: (d ++ ('?' :: q)))))
  ∧ (∀ pre tail d : List Char,
      '/' ∉ tail → d ≠ [] →
      getDbTypeFromStrL (pre ++ '/' :: tail) ≠ .sqlserver →
      jsUrlOk (transformForUrl (pre ++ '/' :: tail)) = true →
      getConnectionStringForDbL (pre ++ '/' :: tail) d = pre ++ '/' :: d) := by
  constructor
  · intro pre old q d hqpre hslo hqo hqq hd hu
    have hsEq : "mssql".data ++ (pre ++ ('/' :: (old ++ ('?' :: q))))
        = ("mssql".data ++ (pre ++ ('/' :: old))) ++ '?' :: q := by simp
    have hP : '?' ∉ ("mssql".data ++ (pre ++ ('/' :: old))) := by
      simp only [List.mem_append, List.mem_cons, not_or]
      exact ⟨by decide, hqpre, by decide, hqo⟩
    have ht : getDbTypeFromStrL
        (("mssql".data ++ (pre ++ ('/' :: old))) ++ '?' :: q) = .sqlserver := by
      rw [← hsEq]
      exact getDbTypeFromStrL_mssql _
    rw [hsEq] at hu ⊢
    rw [fL_sqlserver_query _ _ _ hP hd ht hu,
      takeWhile_ne_of_not_mem '?' q hqq]
    have hbl : beforeLast '/' ("mssql".data ++ (pre ++ ('/' :: old)))
        = "mssql".data ++ pre := by
      have e : "mssql".data ++ (pre ++ ('/' :: old))
          = ("mssql".data ++ pre) ++ '/' :: old := by simp
      rw [e, beforeLast_append '/' _ old hslo]
    rw [hbl]
    simp
  · intro pre tail d hstl hd htype hu
    have hs : pre ++ '/' :: tail ≠ [] := by simp
    rw [fL_other _ _ hs hd htype hu, beforeLast_append '/' pre tail hstl]

/-- Witness for C1 (amended): the claim's SQL Server example string keeps
its `?driver=X` suffix, and a mysql string with a query loses it. -/
theorem claim_C1_amended_witness :
    getConnectionStringForDbL "mssql+pyodbc://u:p@h/db?driver=X".data "newdb".data
      = "mssql+pyodbc://u:p@h/newdb?driver=X".data
  ∧ getConnectionStringForDbL "mysql://u:p@h/db?x=1".data "newdb".data
      = "mysql://u:p@h/newdb".data := by
  constructor
  · have h := claim_C1_amended.1 "+pyodbc://u:p@h".data "db".data "driver=X".data
      "newdb".data (by decide) (by decide) (by decide) (by decide) (by decide) (by decide)
    exact h
  · have h := claim_C1_amended.2 "mysql://u:p@h".data "db?x=1".data "newdb".data
      (by decide) (by decide) (by decide) (by decide)
    exact h

/-- C5: the client-side filter of `getDatabases` excludes exactly the
dialect's system catalogs — `information_schema`, `mysql`,
`performance_schema`, `sys` under mysql; `postgres` under postgres;
nothing under sqlserver — and returns every other fetched name. -/
theorem claim_C5_system_catalog_filter (t : DbType) (dbs : List String) :
    getDatabasesFilter t dbs
      = dbs.filter (fun db => !((excludedCatalogs t).contains db))
  ∧ (∀ x : String, x ∈ getDatabasesFilter t dbs ↔ x ∈ dbs ∧ x ∉ excludedCatalogs t) := by
  constructor
  · cases t <;> rfl
  · intro x
    cases t <;>
      simp [getDatabasesFilter, mysqlSystemDbs, excludedCatalogs, List.mem_filter]

/-- Witness for C5: under mysql, a user database passes the filter while
`information_schema` is removed. -/
theorem claim_C5_system_catalog_filter_witness :
    "mydb" ∈ getDatabasesFilter .mysql ["information_schema", "mydb", "sys"]
  ∧ "information_schema" ∉
      getDatabasesFilter .mysql ["information_schema", "mydb", "sys"] := by
  constructor
  · exact ((claim_C5_system_catalog_filter .mysql
      ["information_schema", "mydb", "sys"]).2 "mydb").mpr ⟨by decide, by decide⟩
  · intro hm
    have hx := ((claim_C5_system_catalog_filter .mysql
      ["information_schema", "mydb", "sys"]).2 "information_schema").mp hm
    exact hx.2 (by decide)

/-- C3: a delete (or update) whose primary-key identity is empty is refused
with `MutationPreconditionFailed` and no SQL is ever produced for the
executor.  (Spec-modelled backend service; see `deleteRowSql`.) -/
theorem claim_C3_empty_pk_refused (table : String) (nv : List (String × String)) :
    deleteRowSql table [] = .error .MutationPreconditionFailed
  ∧ updateRowSql table [] nv = .error .MutationPreconditionFailed
  ∧ (∀ sql : String, deleteRowSql table [] ≠ .ok sql)
  ∧ (∀ sql : String, updateRowSql table [] nv ≠ .ok sql) := by
  refine ⟨rfl, rfl, ?_, ?_⟩ <;> intro sql h <;> simp [deleteRowSql, updateRowSql] at h

/-- Witness for C3: the claim's own example, `delete("orders", {})`. -/
theorem claim_C3_empty_pk_refused_witness :
    deleteRowSql "orders" [] = .error .MutationPreconditionFailed :=
  (claim_C3_empty_pk_refused "orders" []).1

/-- C4: every column of `newValues` that is also a primary-key column is
silently dropped from the generated SET list rather than causing an error;
in particular `update("orders", {id: 7}, {id: 99, status: "shipped"})`
sets only `status`.  (Spec-modelled backend service; see
`updateRowSql`.) -/
theorem claim_C4_pk_columns_dropped (table : String) (pk nv : List (String × String))
    (h : pk ≠ []) :
    (∃ sql, updateRowSql table pk nv = .ok sql)
  ∧ (∀ kv ∈ updateSetPairs pk nv, kv.1 ∉ pk.map Prod.fst)
  ∧ (∀ kv ∈ nv, kv.1 ∉ pk.map Prod.fst → kv ∈ updateSetPairs pk nv)
  ∧ updateSetPairs [("id", "7")] [("id", "99"), ("status", "shipped")]
      = [("status", "shipped")] := by
  refine ⟨?_, ?_, ?_, rfl⟩
  · cases pk with
    | nil => exact absurd rfl h
    | cons a l => exact ⟨_, rfl⟩
  · intro kv hm
    have hp := (List.mem_filter.mp hm).2
    simpa using hp
  · intro kv hm hnot
    exact List.mem_filter.mpr ⟨hm, by simpa using hnot⟩

/-- Witness for C4: the claim's own example input. -/
theorem claim_C4_pk_columns_dropped_witness :
    updateSetPairs [("id", "7")] [("id", "99"), ("status", "shipped")]
      = [("status", "shipped")] :=
  (claim_C4_pk_columns_dropped "orders" [("id", "7")]
    [("id", "99"), ("status", "shipped")] (by simp)).2.2.2

/-- C7 (code-bug evidence): when the executor resolves with an
engine-reported failure (`success: false`), `handleExecuteQuery` still
records the history entry with status `'success'` — the claim (and spec
§4.5) require status `'error'` for a failed query. -/
theorem claim_C7_failed_query_recorded_success :
    (handleExecuteQuery
        (.ok { success := false, rows := none, rows_affected := none,
               message := some "Unknown column x in field list" }) true).historyCalls
      = [("success", 0)]
  ∧ ({ success := false, rows := none, rows_affected := none,
       message := some "Unknown column x in field list" } : QueryResult).success
      = false
  ∧ (handleExecuteQuery (.error "network error") true).historyCalls
      = [("error", 0)] := ⟨rfl, rfl, rfl⟩

/-- C8: `addHistory` is invoked exactly once per `handleExecuteQuery` run,
whether the executor resolved or raised; a failed history persistence never
raises to the caller and never alters the stored query result or error. -/
theorem claim_C8_record_exactly_once (exec : Except String QueryResult) (b : Bool) :
    (handleExecuteQuery exec b).historyCalls.length = 1
  ∧ (handleExecuteQuery exec b).raisedToCaller = false
  ∧ (∀ b' : Bool, handleExecuteQuery exec b = handleExecuteQuery exec b')
  ∧ (∀ r : QueryResult, exec = .ok r → (handleExecuteQuery exec b).queryResult = some r)
  ∧ (∀ e : String, exec = .error e → (handleExecuteQuery exec b).queryError = some e) := by
  cases exec <;> simp [handleExecuteQuery]

/-- Witness for C8: a concrete successful execution is stored unchanged. -/
theorem claim_C8_record_exactly_once_witness :
    (handleExecuteQuery
        (.ok { success := true, rows := some ["r1"], rows_affected := none,
               message := none }) true).queryResult
      = some { success := true, rows := some ["r1"], rows_affected := none,
               message := none } :=
  (claim_C8_record_exactly_once
    (.ok { success := true, rows := some ["r1"], rows_affected := none,
           message := none }) true).2.2.2.1 _ rfl

/-- C6 (counterexample): with the tables fetch succeeding and the views
fetch failing, `loadDatabaseObjects` delivers none of the succeeding
categories' results — the previous (empty) state is kept and one combined
error is shown — contradicting the claim that each succeeding category is
still delivered. -/
theorem claim_C6_counterexample :
    loadDatabaseObjects ⟨[], [], [], [], []⟩
        (.ok ["t1"]) (.error "network error") (.ok []) (.ok []) (.ok [])
      = (⟨[], [], [], [], []⟩, some "Failed to load database objects: network error")
  ∧ "t1" ∉ (loadDatabaseObjects ⟨[], [], [], [], []⟩
        (.ok ["t1"]) (.error "network error") (.ok []) (.ok []) (.ok [])).1.tables := by
  exact ⟨rfl, fun hmem => List.not_mem_nil "t1" hmem⟩

/-- C6 (amended): the five metadata category fetches are joined with
`Promise.all`, so all five lists are delivered only when every fetch
succeeds; if any category fails the whole join rejects, a single combined
error is reported (not per-category) and no category's results are
delivered — the previous object state is kept. -/
theorem claim_C6_amended (prev : DbObjects) (t v p f g : Except String (List String)) :
    (∀ ts vs ps fs gs, t = .ok ts → v = .ok vs → p = .ok ps → f = .ok fs → g = .ok gs →
      loadDatabaseObjects prev t v p f g = (⟨ts, vs, ps, fs, gs⟩, none))
  ∧ (∀ e, promiseAll5 t v p f g = .error e →
      loadDatabaseObjects prev t v p f g
        = (prev, some ("Failed to load database objects: " ++ e)))
  ∧ ((¬ ∃ ts vs ps fs gs, t = .ok ts ∧ v = .ok vs ∧ p = .ok ps ∧ f = .ok fs ∧ g = .ok gs) →
      ∃ e, promiseAll5 t v p f g = .error e ∧
        loadDatabaseObjects prev t v p f g
          = (prev, some ("Failed to load database objects: " ++ e))) := by
  refine ⟨?_, ?_, ?_⟩
  · intro ts vs ps fs gs h1 h2 h3 h4 h5
    subst h1; subst h2; subst h3; subst h4; subst h5
    rfl
  · intro e he
    simp [loadDatabaseObjects, he]
  · intro hno
    cases t with
    | error e => exact ⟨e, rfl, rfl⟩
    | ok ts =>
      cases v with
      | error e => exact ⟨e, rfl, rfl⟩
      | ok vs =>
        cases p with
        | error e => exact ⟨e, rfl, rfl⟩
        | ok ps =>
          cases f with
          | error e => exact ⟨e, rfl, rfl⟩
          | ok fs =>
            cases g with
            | error e => exact ⟨e, rfl, rfl⟩
            | ok gs => exact absurd ⟨ts, vs, ps, fs, gs, rfl, rfl, rfl, rfl, rfl⟩ hno

/-- Witness for C6 (amended): a concrete all-success join delivers all five
lists, and a concrete failing join keeps the previous state. -/
theorem claim_C6_amended_witness :
    loadDatabaseObjects ⟨[], [], [], [], []⟩
        (.ok ["a"]) (.ok ["b"]) (.ok []) (.ok []) (.ok [])
      = (⟨["a"], ["b"], [], [], []⟩, none) :=
  (claim_C6_amended ⟨[], [], [], [], []⟩
    (.ok ["a"]) (.ok ["b"]) (.ok []) (.ok []) (.ok [])).1
    ["a"] ["b"] [] [] [] rfl rfl rfl rfl rfl

/-- C10 (counterexample): retargeting is not idempotent for every non-empty
database name: with the name `a/b` the second application splits at the
slash introduced by the first and the string changes again. -/
theorem claim_C10_counterexample :
    ("a/b" : String) ≠ ""
  ∧ getConnectionStringForDb (getConnectionStringForDb "mysql://h/db" "a/b") "a/b"
      ≠ getConnectionStringForDb "mysql://h/db" "a/b" := ⟨by decide, by decide⟩

/-- C10 (amended): retargeting is idempotent for every connection string
and every non-empty database name that contains neither `/` nor `?`:
`getConnectionStringForDb (getConnectionStringForDb s d) d =
getConnectionStringForDb s d`. -/
theorem claim_C10_amended (s d : String) (hd : d ≠ "") (h1 : '/' ∉ d.data)
    (h2 : '?' ∉ d.data) :
    getConnectionStringForDb (getConnectionStringForDb s d) d
      = getConnectionStringForDb s d := by
  have hdL : d.data ≠ [] := fun h => hd (by rw [← string_mk_data d, h])
  exact congrArg String.mk (idemL s.data d.data hdL h1 h2)

/-- Witness for C10 (amended): idempotence at the SQL Server example
string. -/
theorem claim_C10_amended_witness :
    getConnectionStringForDb
        (getConnectionStringForDb "mssql+pyodbc://u:p@h/olddb?driver=Y" "newdb")
        "newdb"
      = getConnectionStringForDb "mssql+pyodbc://u:p@h/olddb?driver=Y" "newdb" :=
  claim_C10_amended "mssql+pyodbc://u:p@h/olddb?driver=Y" "newdb"
    (by decide) (by decide) (by decide)

/-- C9 (counterexample): on the unparseable string `"not a url"` —
`new URL` throws on it — `getConnectionStringForDb` does not fail with
`MalformedConnectionString`: it silently returns the original string
unchanged, contradicting the claim. -/
theorem claim_C9_counterexample :
    jsUrlOk (transformForUrl "not a url".data) = false
  ∧ getConnectionStringForDb "not a url" "newdb" = "not a url" := by
  exact ⟨rfl, rfl⟩

/-- C9 (amended): on every connection string whose scheme rewriting makes
`new URL` throw, `getConnectionStringForDb` swallows the error in its
`catch` and returns the original string unchanged; no
`MalformedConnectionString` failure channel exists. -/
theorem claim_C9_amended (s d : String)
    (h : jsUrlOk (transformForUrl s.data) = false) :
    getConnectionStringForDb s d = s := by
  by_cases h0 : s.data = [] ∨ d.data = []
  · simp [getConnectionStringForDb, getConnectionStringForDbL, h0, string_mk_data]
  · simp [getConnectionStringForDb, getConnectionStringForDbL, h0, h, string_mk_data]

/-- Witness for C9 (amended): a concrete malformed string is returned
unchanged. -/
theorem claim_C9_amended_witness :
    getConnectionStringForDb "::::" "newdb" = "::::" :=
  claim_C9_amended "::::" "newdb" (by decide)

end DbHub
